import Mathlib

/-
Verification development for the bugeutils repository.

The repository provides two primitives:
  * a generational slot map, `ReusableIndexVec` (src/src/list/reusable_index_vec.rs),
    whose slots are `ReusableIndexNode` values threaded into a free list, and
  * a type-erased owning container, `BlackBox` (src/src/black_box.rs),
together with a shared error vocabulary `ErrorType` (src/src/error.rs).

This file is a shallow embedding of those components.  Rust `usize` indices
become `Nat`; the 32-bit `CycleStamp` becomes `Nat` with explicit reduction
modulo 2^32 at the single place the source performs `wrapping_add`; `Vec`
becomes `List`; fallible operations return `Except`/`Option`; a Rust panic is
modelled as an `Option.none` result of the whole operation.  Operations that
take `&mut self` but do not mutate (`get`, `get_mut`, `iter`) are modelled as
pure functions of the state.
-/

namespace Bugeutils

/-- Slot index into the vector.  Modelled from the spec: the `Index` type of
the `crate::list` module root, whose file is not under src/; the spec and the
uses in src/src/list/reusable_index_vec.rs make it the container's `usize`
slot index. -/
abbrev Index := Nat

/-- Generation counter.  Modelled from the spec: the `CycleStamp` type of the
`crate::list` module root, whose file is not under src/; the doc comment in
src/src/list/reusable_index_vec.rs fixes it at 32 bits, so it is a `Nat`
kept below `2 ^ 32` by the wrapping addition below. -/
abbrev CycleStamp := Nat

/-- Modulus of the 32-bit `CycleStamp`. -/
def cycleStampModulus : Nat := 2 ^ 32

/-- Wrapping 32-bit addition, the `cycle_stamp.wrapping_add(1)` of
`ReusableIndexVec::add`. -/
def wrappingAdd32 (c n : Nat) : Nat := (c + n) % cycleStampModulus

/-- Handle into the slot map.  Modelled from the spec: the `ID` tuple struct
`ID(CycleStamp, Index)` of the `crate::list` module root, whose file is not
under src/; two handles are equal iff both fields match. -/
structure ID where
  stamp : CycleStamp
  index : Index
deriving DecidableEq, Repr

/-- Error kinds of src/src/error.rs (`ErrorType`): exactly the four variants
the enum declares.  (Note that src/src/black_box.rs constructs a
`BugeErrorType::NotCompatible` value, which this enum does not provide.) -/
inductive ErrorType where
  | InvalidParameter
  | NotFound
  | Expired
  | UnexpectedError
deriving DecidableEq, Repr

/-- Error value of src/src/error.rs (`Error`): a kind plus a description. -/
structure Error where
  error_type : ErrorType
  error_desc : String
deriving DecidableEq, Repr

/-- Constructor `Error::new` of src/src/error.rs. -/
def Error.new (error_type : ErrorType) (error_desc : String) : Error :=
  ⟨error_type, error_desc⟩

/-- Result alias `ListResult<T>`.  Modelled from the spec: declared in the
`crate::list` module root, whose file is not under src/; its uses in
src/src/list/reusable_index_vec.rs make it `Result<T, Error>`. -/
abbrev ListResult (α : Type) := Except Error α

/-- Slot states of the slot map, `ReusableIndexNode<T>` of
src/src/list/reusable_index_vec.rs: a live value with its cycle stamp, a
removed slot, or a removed slot linking to the next free slot. -/
inductive ReusableIndexNode (T : Type) where
  | Exists (cycle_stamp : CycleStamp) (value : T)
  | Removed (cycle_stamp : CycleStamp)
  | RemovedAndNext (cycle_stamp : CycleStamp) (next : Index)
deriving DecidableEq, Repr

/-- The slot map `ReusableIndexVec<T>`: the growable vector of slots plus the
head of the free list. -/
structure ReusableIndexVec (T : Type) where
  vector : List (ReusableIndexNode T)
  last_removed : Option Index
deriving DecidableEq, Repr

namespace ReusableIndexVec

/-- Constructor `ReusableIndexVec::with_capacity`: the capacity argument is
only an allocation hint (`Vec::with_capacity`), so the logical state it
produces is the empty container. -/
def with_capacity (T : Type) (_capacity : Nat) : ReusableIndexVec T :=
  ⟨[], none⟩

/-- Default initial capacity of `ReusableIndexVec::new`. -/
def DEFAULT_INITIAL_CAPACITY : Nat := 128

/-- Constructor `ReusableIndexVec::new`, delegating to `with_capacity`. -/
def new (T : Type) : ReusableIndexVec T :=
  with_capacity T DEFAULT_INITIAL_CAPACITY

/-- Operation `ReusableIndexVec::add`.  `none` models a panic: either the
debug assertion / indexing failure when `last_removed` is out of bounds, or
the `panic!("[LOGIC ERROR] Node at {} should not exist", ..)` branch when the
slot picked for reuse is already `Exists`.  On success it returns the new
`ID` and the updated container. -/
def add (s : ReusableIndexVec T) (node : T) : Option (ID × ReusableIndexVec T) :=
  match s.last_removed with
  | some last_removed =>
    match s.vector[last_removed]? with
    | some (ReusableIndexNode.Removed cycle_stamp) =>
      let new_cycle_stamp := wrappingAdd32 cycle_stamp 1
      some (⟨new_cycle_stamp, last_removed⟩,
        { vector := s.vector.set last_removed (ReusableIndexNode.Exists new_cycle_stamp node),
          last_removed := none })
    | some (ReusableIndexNode.RemovedAndNext cycle_stamp next_removed) =>
      let new_cycle_stamp := wrappingAdd32 cycle_stamp 1
      some (⟨new_cycle_stamp, last_removed⟩,
        { vector := s.vector.set last_removed (ReusableIndexNode.Exists new_cycle_stamp node),
          last_removed := some next_removed })
    | some (ReusableIndexNode.Exists _ _) => none
    | none => none
  | none =>
    some (⟨0, s.vector.length⟩,
      { vector := s.vector ++ [ReusableIndexNode.Exists 0 node],
        last_removed := none })

/-- Operation `ReusableIndexVec::remove`.  Returns the `ListResult<()>` of
the source paired with the container after the call (the source mutates
`&mut self`; on the error path it leaves it untouched). -/
def remove (s : ReusableIndexVec T) (id : ID) : ListResult Unit × ReusableIndexVec T :=
  match s.vector[id.index]? with
  | some (ReusableIndexNode.Exists cycle_stamp _) =>
    if id.stamp = cycle_stamp then
      let newNode :=
        match s.last_removed with
        | some last_removed => ReusableIndexNode.RemovedAndNext cycle_stamp last_removed
        | none => ReusableIndexNode.Removed cycle_stamp
      (Except.ok (),
        { vector := s.vector.set id.index newNode, last_removed := some id.index })
    else
      (Except.error (Error.new ErrorType.NotFound
        ("node with id " ++ toString id.stamp ++ "::" ++ toString id.index ++ " not found")), s)
  | _ =>
    (Except.error (Error.new ErrorType.NotFound
      ("node with id " ++ toString id.stamp ++ "::" ++ toString id.index ++ " not found")), s)

/-- Helper `ReusableIndexVec::get_by_index`: the cycle stamp and value of the
slot at `index` when that slot is `Exists`. -/
def get_by_index (s : ReusableIndexVec T) (index : Index) : Option (CycleStamp × T) :=
  match s.vector[index]? with
  | some (ReusableIndexNode.Exists cycle_stamp node) => some (cycle_stamp, node)
  | _ => none

/-- Operation `ReusableIndexVec::get`: validates the handle's stamp against
the slot's stamp and returns the stored value on a match. -/
def get (s : ReusableIndexVec T) (id : ID) : Option T :=
  match s.get_by_index id.index with
  | some (found_cycle_stamp, node) =>
    if id.stamp = found_cycle_stamp then some node else none
  | none => none

/-- Operation `ReusableIndexVec::get_mut`: in the source this is `get` with a
mutable reborrow; the value it exposes is the same. -/
def get_mut (s : ReusableIndexVec T) (id : ID) : Option T :=
  match s.get_by_index id.index with
  | some (found_cycle_stamp, node) =>
    if id.stamp = found_cycle_stamp then some node else none
  | none => none

/-- Operation `ReusableIndexVec::as_slice`: the raw slot vector. -/
def as_slice (s : ReusableIndexVec T) : List (ReusableIndexNode T) :=
  s.vector

end ReusableIndexVec

/-- Iterator state `ReusableIndexIterator<'vec, T>`: a borrowed slice of the
slots, the captured length, and the cursor. -/
structure ReusableIndexIterator (T : Type) where
  slice : List (ReusableIndexNode T)
  length : Nat
  index : Nat
deriving DecidableEq, Repr

/-- Operation `ReusableIndexVec::iter`: starts an iterator over the current
slots. -/
def ReusableIndexVec.iter (s : ReusableIndexVec T) : ReusableIndexIterator T :=
  ⟨s.vector, s.vector.length, 0⟩

/-- Method `ReusableIndexIterator::next`: the source loops, skipping
non-`Exists` slots, until it yields a value (with the advanced iterator) or
runs past `length`. -/
def ReusableIndexIterator.next (it : ReusableIndexIterator T) :
    Option (T × ReusableIndexIterator T) :=
  if _h : it.index < it.length then
    match it.slice[it.index]? with
    | some (ReusableIndexNode.Exists _ item) =>
      some (item, { it with index := it.index + 1 })
    | some _ => ReusableIndexIterator.next { it with index := it.index + 1 }
    | none => none
  else
    none
termination_by it.length - it.index

/-- Full output of the iterator: the list of values obtained by driving
`next` to exhaustion.  It fuses the `next` loop (same case split, same
cursor movement); the theorem for the iteration claim proves it equal to
repeatedly calling `ReusableIndexIterator.next`. -/
def ReusableIndexIterator.drain (it : ReusableIndexIterator T) : List T :=
  if _h : it.index < it.length then
    match it.slice[it.index]? with
    | some (ReusableIndexNode.Exists _ item) =>
      item :: ReusableIndexIterator.drain { it with index := it.index + 1 }
    | some _ => ReusableIndexIterator.drain { it with index := it.index + 1 }
    | none => []
  else
    []
termination_by it.length - it.index

/-- Value of an `Exists` slot, `none` for removed slots; `filterMap` of this
over the slot vector is the reference answer for iteration. -/
def ReusableIndexNode.existsValue : ReusableIndexNode T → Option T
  | ReusableIndexNode.Exists _ value => some value
  | _ => none

/-- Sequence of `add` calls with no interleaved removal: returns the handles
in call order and the final state, or `none` if some `add` panics. -/
def ReusableIndexVec.addList (s : ReusableIndexVec T) (vs : List T) :
    Option (List ID × ReusableIndexVec T) :=
  match vs with
  | [] => some ([], s)
  | v :: rest =>
    match s.add v with
    | none => none
    | some (id, s') =>
      match s'.addList rest with
      | none => none
      | some (ids, s'') => some (id :: ids, s'')

/-- Slot `i` of `s` currently holds a live (`Exists`) value. -/
def ReusableIndexVec.occupiedAt (s : ReusableIndexVec T) (i : Index) : Prop :=
  ∃ c v, s.vector[i]? = some (ReusableIndexNode.Exists c v)

/-- The free list of the slot vector `v`, starting from head `h`, is exactly
the index list `chain`: each link is a `RemovedAndNext` slot pointing to the
rest, and the list ends at a terminal `Removed` slot (or is empty when the
head is `none`). -/
inductive FreeChain (v : List (ReusableIndexNode T)) : Option Index → List Index → Prop where
  | nil : FreeChain v none []
  | last (i : Index) (c : CycleStamp)
      (h : v[i]? = some (ReusableIndexNode.Removed c)) :
      FreeChain v (some i) [i]
  | cons (i : Index) (c : CycleStamp) (n : Index) (rest : List Index)
      (h : v[i]? = some (ReusableIndexNode.RemovedAndNext c n))
      (hrest : FreeChain v (some n) rest) :
      FreeChain v (some i) (i :: rest)

/-- Structural invariant of the container: the free list starting at
`last_removed` is a duplicate-free chain through removed slots. -/
def FreeListInv (s : ReusableIndexVec T) : Prop :=
  ∃ chain, FreeChain s.vector s.last_removed chain ∧ chain.Nodup

/-- States reachable from a freshly constructed container by the public
mutating operations.  `add` contributes a step only when it returns (a panic
yields no state); `remove` contributes a step on both its success and its
error path (the error path returns the state unchanged); `get`, `get_mut`,
`iter` and `as_slice` do not modify the state and need no step. -/
inductive Reachable : ReusableIndexVec T → Prop where
  | init (capacity : Nat) : Reachable (ReusableIndexVec.with_capacity T capacity)
  | addStep {s : ReusableIndexVec T} {v : T} {id : ID} {s' : ReusableIndexVec T} :
      Reachable s → s.add v = some (id, s') → Reachable s'
  | removeStep {s : ReusableIndexVec T} {id : ID} {r : ListResult Unit}
      {s' : ReusableIndexVec T} :
      Reachable s → s.remove id = (r, s') → Reachable s'

/-- Error kinds as the spec's shared taxonomy lists them.  Modelled from the
spec: the `NotCompatible` variant that src/src/black_box.rs constructs
(`BugeErrorType::NotCompatible`) is missing from the `ErrorType` enum in
src/src/error.rs, so the five-kind vocabulary of spec §6/§7 is used for the
`BlackBox` embedding. -/
inductive ErrorTypeSpec where
  | InvalidParameter
  | NotFound
  | Expired
  | UnexpectedError
  | NotCompatible
deriving DecidableEq, Repr

/-- Error value carrying a spec-taxonomy kind and a description, used by the
`BlackBox` accessors. -/
structure ErrorSpec where
  error_type : ErrorTypeSpec
  error_desc : String
deriving DecidableEq, Repr

/-- Type-erased owning container `BlackBox` of src/src/black_box.rs.  `Tag`
models `std::any::TypeId` (any type with decidable equality); `Val t` is the
type whose identity the tag `t` names.  `type_id` is the identity captured at
construction and `content` models the heap cell behind `content_ptr`: the one
value the container owns, readable only at its true type.  The `dropper`
closure concerns deallocation, which has no observable effect in this pure
model. -/
structure BlackBox (Tag : Type) (Val : Tag → Type) where
  type_id : Tag
  content : Val type_id

/-- Constructor `BlackBox::new::<T>(value)`: captures the type identity and
stores the value. -/
def BlackBox.new (Tag : Type) (Val : Tag → Type) (t : Tag) (value : Val t) :
    BlackBox Tag Val :=
  ⟨t, value⟩

/-- Checked accessor `BlackBox::get_ref::<T>()`: compares the requested type
identity with the captured one; on a match the stored value is returned at
the requested type, otherwise a `NotCompatible` error. -/
def BlackBox.get_ref {Tag : Type} [DecidableEq Tag] {Val : Tag → Type}
    (b : BlackBox Tag Val) (t : Tag) : Except ErrorSpec (Val t) :=
  if h : b.type_id = t then
    Except.ok (h ▸ b.content)
  else
    Except.error ⟨ErrorTypeSpec.NotCompatible, "Incorrect unboxing type"⟩

/-- Checked accessor `BlackBox::get_mut_ref::<T>()`: same check as `get_ref`;
the value it exposes (mutably in the source) is the same. -/
def BlackBox.get_mut_ref {Tag : Type} [DecidableEq Tag] {Val : Tag → Type}
    (b : BlackBox Tag Val) (t : Tag) : Except ErrorSpec (Val t) :=
  if h : b.type_id = t then
    Except.ok (h ▸ b.content)
  else
    Except.error ⟨ErrorTypeSpec.NotCompatible, "Incorrect unboxing type"⟩

/-! Helper lemmas shared by the claim theorems. -/

theorem getElem?_some_lt {α : Type} {l : List α} {n : Nat} {a : α}
    (h : l[n]? = some a) : n < l.length := by
  rcases Nat.lt_or_ge n l.length with h' | h'
  · exact h'
  · rw [List.getElem?_eq_none h'] at h
    exact absurd h (by simp)

/-- On success, `add` leaves the target slot `Exists` with the returned
handle's stamp and the added value. -/
theorem add_sets_slot {T : Type} {s : ReusableIndexVec T} {v : T} {id : ID}
    {s' : ReusableIndexVec T} (h : s.add v = some (id, s')) :
    s'.vector[id.index]? = some (ReusableIndexNode.Exists id.stamp v) := by
  unfold ReusableIndexVec.add at h
  split at h
  · split at h
    · rename_i lr hlr c hv
      simp only [Option.some.injEq, Prod.mk.injEq] at h
      obtain ⟨hid, hs⟩ := h
      subst hid hs
      exact List.getElem?_set_eq_of_lt _ (getElem?_some_lt hv)
    · rename_i lr hlr c n hv
      simp only [Option.some.injEq, Prod.mk.injEq] at h
      obtain ⟨hid, hs⟩ := h
      subst hid hs
      exact List.getElem?_set_eq_of_lt _ (getElem?_some_lt hv)
    · exact absurd h (by simp)
    · exact absurd h (by simp)
  · simp only [Option.some.injEq, Prod.mk.injEq] at h
    obtain ⟨hid, hs⟩ := h
    subst hid hs
    exact List.getElem?_concat_length s.vector _

/-- C1 supporting theorem: the shared error vocabulary of src/src/error.rs is
exactly `InvalidParameter`, `NotFound`, `Expired`, `UnexpectedError` — there
is no `NotCompatible` kind, even though src/src/black_box.rs constructs one
on the mismatch path of `get_ref`/`get_mut_ref`. -/
theorem errorType_has_no_notCompatible (e : ErrorType) :
    e = ErrorType.InvalidParameter ∨ e = ErrorType.NotFound ∨
      e = ErrorType.Expired ∨ e = ErrorType.UnexpectedError := by
  cases e <;> simp

/-- C3: for every slot map state and value `v`, `get` applied to the handle
returned by a successful `add` of `v` returns `some v`. -/
theorem get_after_add {T : Type} (s : ReusableIndexVec T) (v : T) (id : ID)
    (s' : ReusableIndexVec T) (h : s.add v = some (id, s')) :
    s'.get id = some v := by
  have hslot := add_sets_slot h
  unfold ReusableIndexVec.get ReusableIndexVec.get_by_index
  rw [hslot]
  simp

/-- C3 witness: adding `7` to the empty container returns handle `⟨0, 0⟩` and
a state from which `get ⟨0, 0⟩` recovers `7`. -/
theorem get_after_add_witness :
    (ReusableIndexVec.new Nat).add 7 =
        some (⟨0, 0⟩, ⟨[ReusableIndexNode.Exists 0 7], none⟩) ∧
      (⟨[ReusableIndexNode.Exists 0 7], none⟩ : ReusableIndexVec Nat).get ⟨0, 0⟩ = some 7 :=
  ⟨rfl, get_after_add (ReusableIndexVec.new Nat) 7 ⟨0, 0⟩
    ⟨[ReusableIndexNode.Exists 0 7], none⟩ rfl⟩

/-- Shape of a successful `remove`: the handle's slot was `Exists` with the
handle's stamp, and the new state replaces exactly that slot with the
tombstone (linked to the old free-list head when there is one) and points
`last_removed` at it. -/
theorem remove_ok_spec {T : Type} {s : ReusableIndexVec T} {id : ID}
    {s' : ReusableIndexVec T} (h : s.remove id = (Except.ok (), s')) :
    ∃ w, s.vector[id.index]? = some (ReusableIndexNode.Exists id.stamp w) ∧
      s' = ⟨s.vector.set id.index
              (match s.last_removed with
               | some lr => ReusableIndexNode.RemovedAndNext id.stamp lr
               | none => ReusableIndexNode.Removed id.stamp),
            some id.index⟩ := by
  unfold ReusableIndexVec.remove at h
  split at h
  · rename_i c w hv
    split at h
    · rename_i hstamp
      simp only [Prod.mk.injEq, true_and] at h
      subst hstamp
      exact ⟨w, hv, h.symm⟩
    · exact absurd h (by simp)
  · exact absurd h (by simp)

/-- Failure behaviour of `remove` on any invalid handle, shared by several
claim theorems. -/
theorem remove_bad_handle {T : Type} (s : ReusableIndexVec T) (id : ID)
    (h : s.vector.length ≤ id.index ∨
         (∀ c v, s.vector[id.index]? ≠ some (ReusableIndexNode.Exists c v)) ∨
         (∃ c v, s.vector[id.index]? = some (ReusableIndexNode.Exists c v) ∧
           c ≠ id.stamp)) :
    ∃ e, s.remove id = (Except.error e, s) ∧ e.error_type = ErrorType.NotFound := by
  unfold ReusableIndexVec.remove
  split
  · rename_i c w hv
    have hc : c ≠ id.stamp := by
      rcases h with hoob | hne | ⟨c', v', hv', hne'⟩
      · exact absurd (getElem?_some_lt hv) (Nat.not_lt.mpr hoob)
      · exact absurd hv (hne c w)
      · rw [hv] at hv'
        injection hv' with hv''
        cases hv''
        exact hne'
    rw [if_neg (fun hs => hc hs.symm)]
    exact ⟨_, rfl, rfl⟩
  · exact ⟨_, rfl, rfl⟩

/-- C4: on any invalid handle (index out of bounds, slot not occupied, or
stamp mismatch) `remove` returns a `NotFound` error and leaves the container
(every slot and the `last_removed` field) exactly as it was; the model is
total, mirroring the panic-free source. -/
theorem remove_invalid_not_found {T : Type} (s : ReusableIndexVec T) (id : ID)
    (h : s.vector.length ≤ id.index ∨
         (∀ c v, s.vector[id.index]? ≠ some (ReusableIndexNode.Exists c v)) ∨
         (∃ c v, s.vector[id.index]? = some (ReusableIndexNode.Exists c v) ∧
           c ≠ id.stamp)) :
    ∃ e, s.remove id = (Except.error e, s) ∧ e.error_type = ErrorType.NotFound :=
  remove_bad_handle s id h

/-- C4 witness: removing handle `⟨0, 0⟩` from the empty container (index out
of bounds) yields a `NotFound` error and the unchanged container. -/
theorem remove_invalid_not_found_witness :
    ∃ e, (ReusableIndexVec.new Nat).remove ⟨0, 0⟩ =
        (Except.error e, ReusableIndexVec.new Nat) ∧
      e.error_type = ErrorType.NotFound :=
  remove_invalid_not_found (ReusableIndexVec.new Nat) ⟨0, 0⟩ (Or.inl (Nat.le_refl 0))

/-- C10: a successful `remove` changes at most the slot at the handle's index
and the `last_removed` field: the slot count is unchanged and every other
slot keeps its exact previous state. -/
theorem remove_frame {T : Type} (s : ReusableIndexVec T) (id : ID)
    (s' : ReusableIndexVec T) (h : s.remove id = (Except.ok (), s')) :
    s'.vector.length = s.vector.length ∧
      ∀ j, j ≠ id.index → s'.vector[j]? = s.vector[j]? := by
  obtain ⟨w, hv, hs⟩ := remove_ok_spec h
  subst hs
  refine ⟨List.length_set .., fun j hj => ?_⟩
  exact List.getElem?_set_ne (fun he => hj he.symm)

/-- C10 witness: removing the only element of a one-slot container keeps the
slot count at one, and every other index reads as before. -/
theorem remove_frame_witness :
    (⟨[ReusableIndexNode.Removed 0], some 0⟩ : ReusableIndexVec Nat).vector.length =
        (⟨[ReusableIndexNode.Exists 0 5], none⟩ : ReusableIndexVec Nat).vector.length ∧
      ∀ j, j ≠ 0 →
        (⟨[ReusableIndexNode.Removed 0], some 0⟩ : ReusableIndexVec Nat).vector[j]? =
          (⟨[ReusableIndexNode.Exists 0 5], none⟩ : ReusableIndexVec Nat).vector[j]? :=
  remove_frame ⟨[ReusableIndexNode.Exists 0 5], none⟩ ⟨0, 0⟩
    ⟨[ReusableIndexNode.Removed 0], some 0⟩ rfl

/-- Wrapping increment of a 32-bit stamp always changes the stamp. -/
theorem wrappingAdd32_one_ne {g : Nat} (hg : g < cycleStampModulus) :
    wrappingAdd32 g 1 ≠ g := by
  unfold wrappingAdd32
  unfold cycleStampModulus at hg ⊢
  rcases Nat.lt_or_ge (g + 1) (2 ^ 32) with h | h
  · rw [Nat.mod_eq_of_lt h]
    omega
  · have hgm : g + 1 = 2 ^ 32 := by omega
    rw [hgm, Nat.mod_self]
    omega

/-- Shape of a successful `add` that reuses a freed slot: the free-list head
slot was a tombstone with some stamp `c`, the returned handle is
`⟨c + 1 (wrapping), head⟩`, and the head slot is overwritten with the new
value. -/
theorem add_pop_spec {T : Type} {s : ReusableIndexVec T} {v : T} {id' : ID}
    {s₂ : ReusableIndexVec T} {i : Index}
    (hadd : s.add v = some (id', s₂)) (hlr : s.last_removed = some i) :
    ∃ c, (s.vector[i]? = some (ReusableIndexNode.Removed c) ∨
           ∃ n, s.vector[i]? = some (ReusableIndexNode.RemovedAndNext c n)) ∧
      id' = ⟨wrappingAdd32 c 1, i⟩ ∧
      s₂.vector = s.vector.set i (ReusableIndexNode.Exists (wrappingAdd32 c 1) v) := by
  unfold ReusableIndexVec.add at hadd
  split at hadd
  · rename_i lr hlr'
    rw [hlr] at hlr'
    injection hlr' with hi
    subst hi
    split at hadd
    · rename_i c hv
      simp only [Option.some.injEq, Prod.mk.injEq] at hadd
      obtain ⟨hid, hs⟩ := hadd
      subst hid
      exact ⟨c, Or.inl hv, rfl, by rw [← hs]⟩
    · rename_i c n hv
      simp only [Option.some.injEq, Prod.mk.injEq] at hadd
      obtain ⟨hid, hs⟩ := hadd
      subst hid
      exact ⟨c, Or.inr ⟨n, hv⟩, rfl, by rw [← hs]⟩
    · exact absurd hadd (by simp)
    · exact absurd hadd (by simp)
  · rename_i hlr'
    rw [hlr] at hlr'
    exact absurd hlr' (by simp)

/-- Shape of an `add` with an empty free list: a fresh `Exists` slot with
stamp `0` is appended and the handle points at it. -/
theorem add_push_spec {T : Type} {s : ReusableIndexVec T} (v : T)
    (hlr : s.last_removed = none) :
    s.add v = some (⟨0, s.vector.length⟩,
      ⟨s.vector ++ [ReusableIndexNode.Exists 0 v], none⟩) := by
  unfold ReusableIndexVec.add
  rw [hlr]

/-- Reading an `Exists` slot through `get_by_index` yields its stamp and
value. -/
theorem get_by_index_exists {T : Type} {s : ReusableIndexVec T} {i : Index}
    {c : CycleStamp} {w : T}
    (hv : s.vector[i]? = some (ReusableIndexNode.Exists c w)) :
    s.get_by_index i = some (c, w) := by
  unfold ReusableIndexVec.get_by_index
  rw [hv]

/-- Characterisation of `get` on a handle whose slot is `Exists`: the value
is returned exactly when the stamps agree. -/
theorem get_eq_of_slot {T : Type} {s : ReusableIndexVec T} {id : ID}
    {c : CycleStamp} {w : T}
    (hv : s.vector[id.index]? = some (ReusableIndexNode.Exists c w)) :
    s.get id = if id.stamp = c then some w else none := by
  unfold ReusableIndexVec.get
  rw [get_by_index_exists hv]

/-- C2: if slot `i` held a value under generation `g` and its removal
succeeds, the next `add` reuses index `i` with a strictly different
generation, and the stale handle `⟨g, i⟩` afterwards yields `none` from `get`
and a `NotFound` error (with no state change) from `remove`, even though slot
`i` is occupied again. -/
theorem stale_handle_after_reuse {T : Type} (s : ReusableIndexVec T)
    (g : CycleStamp) (i : Index) (hg : g < cycleStampModulus)
    (s₁ : ReusableIndexVec T) (hrem : s.remove ⟨g, i⟩ = (Except.ok (), s₁))
    (w : T) (id' : ID) (s₂ : ReusableIndexVec T)
    (hadd : s₁.add w = some (id', s₂)) :
    id'.index = i ∧ id'.stamp ≠ g ∧ s₂.get ⟨g, i⟩ = none ∧
      (∃ e, s₂.remove ⟨g, i⟩ = (Except.error e, s₂) ∧
        e.error_type = ErrorType.NotFound) ∧
      s₂.occupiedAt i := by
  obtain ⟨w₀, hv, hs₁⟩ := remove_ok_spec hrem
  have hi : i < s.vector.length := getElem?_some_lt hv
  have hlr₁ : s₁.last_removed = some i := by rw [hs₁]
  obtain ⟨c, hcase, hid, hvec⟩ := add_pop_spec hadd hlr₁
  have hc : c = g := by
    rcases hlr0 : s.last_removed with _ | lr
    · rw [hlr0] at hs₁
      have hslot₁ : s₁.vector[i]? = some (ReusableIndexNode.Removed g) := by
        rw [hs₁]
        exact List.getElem?_set_eq_of_lt _ hi
      rcases hcase with hx | ⟨n, hx⟩
      · rw [hx] at hslot₁
        simp only [Option.some.injEq, ReusableIndexNode.Removed.injEq] at hslot₁
        exact hslot₁
      · rw [hx] at hslot₁
        simp at hslot₁
    · rw [hlr0] at hs₁
      have hslot₁ : s₁.vector[i]? =
          some (ReusableIndexNode.RemovedAndNext g lr) := by
        rw [hs₁]
        exact List.getElem?_set_eq_of_lt _ hi
      rcases hcase with hx | ⟨n, hx⟩
      · rw [hx] at hslot₁
        simp at hslot₁
      · rw [hx] at hslot₁
        simp only [Option.some.injEq,
          ReusableIndexNode.RemovedAndNext.injEq] at hslot₁
        exact hslot₁.1
  rw [hc] at hid hvec
  have hi₁ : i < s₁.vector.length := by
    rw [hs₁]
    simpa using hi
  have hslot₂ : s₂.vector[i]? =
      some (ReusableIndexNode.Exists (wrappingAdd32 g 1) w) := by
    rw [hvec]
    exact List.getElem?_set_eq_of_lt _ hi₁
  have hne : wrappingAdd32 g 1 ≠ g := wrappingAdd32_one_ne hg
  refine ⟨by rw [hid], by rw [hid]; exact hne, ?_, ?_, ?_⟩
  · rw [get_eq_of_slot hslot₂]
    exact if_neg (fun hgc => hne hgc.symm)
  · exact remove_bad_handle s₂ ⟨g, i⟩
      (Or.inr (Or.inr ⟨wrappingAdd32 g 1, w, hslot₂, hne⟩))
  · exact ⟨wrappingAdd32 g 1, w, hslot₂⟩

/-- C2 witness: in a one-element container, removing `⟨0, 0⟩` and adding
again reuses index `0` under generation `1`, and the stale handle `⟨0, 0⟩`
misses while slot `0` is occupied. -/
theorem stale_handle_after_reuse_witness :
    (⟨1, 0⟩ : ID).index = 0 ∧ (⟨1, 0⟩ : ID).stamp ≠ 0 ∧
      (⟨[ReusableIndexNode.Exists 1 9], none⟩ : ReusableIndexVec Nat).get ⟨0, 0⟩ = none ∧
      (∃ e, (⟨[ReusableIndexNode.Exists 1 9], none⟩ : ReusableIndexVec Nat).remove ⟨0, 0⟩ =
          (Except.error e, ⟨[ReusableIndexNode.Exists 1 9], none⟩) ∧
        e.error_type = ErrorType.NotFound) ∧
      (⟨[ReusableIndexNode.Exists 1 9], none⟩ : ReusableIndexVec Nat).occupiedAt 0 :=
  stale_handle_after_reuse ⟨[ReusableIndexNode.Exists 0 5], none⟩ 0 0 (by decide)
    ⟨[ReusableIndexNode.Removed 0], some 0⟩ rfl 9 ⟨1, 0⟩
    ⟨[ReusableIndexNode.Exists 1 9], none⟩ rfl

/-- C8: a `BlackBox` built from a value answers the checked accessor at the
construction type with `Ok` of that value, and at every other type identity
with a `NotCompatible` error; the model is total (no panic, no access outside
the stored content). -/
theorem black_box_type_check {Tag : Type} [DecidableEq Tag] {Val : Tag → Type}
    (t : Tag) (x : Val t) :
    (BlackBox.new Tag Val t x).get_ref t = Except.ok x ∧
      ∀ u, u ≠ t → ∃ e, (BlackBox.new Tag Val t x).get_ref u = Except.error e ∧
        e.error_type = ErrorTypeSpec.NotCompatible := by
  constructor
  · unfold BlackBox.new BlackBox.get_ref
    rw [dif_pos rfl]
  · intro u hu
    have hnc : ¬ ((BlackBox.new Tag Val t x).type_id = u) :=
      fun hcontra => hu hcontra.symm
    refine ⟨⟨ErrorTypeSpec.NotCompatible, "Incorrect unboxing type"⟩, ?_, rfl⟩
    unfold BlackBox.get_ref
    exact dif_neg hnc

/-- C8 witness: a box built from `42` under tag `true` answers tag `true`
with `Ok 42` and tag `false` with a `NotCompatible` error. -/
theorem black_box_type_check_witness :
    (BlackBox.new Bool (fun _ => Nat) true 42).get_ref true = Except.ok 42 ∧
      ∃ e, (BlackBox.new Bool (fun _ => Nat) true 42).get_ref false = Except.error e ∧
        e.error_type = ErrorTypeSpec.NotCompatible :=
  ⟨(@black_box_type_check Bool _ (fun _ => Nat) true 42).1,
    (@black_box_type_check Bool _ (fun _ => Nat) true 42).2 false (by decide)⟩

/-- C6: from a fresh container holding five values a,b,c,d,e, removing b's
handle then d's handle and performing two adds reuses d's slot index for the
first add and b's slot index for the second add: the free list is LIFO. -/
theorem free_list_lifo_scenario :
    ∃ s₅, ReusableIndexVec.addList (ReusableIndexVec.new Nat) [10, 11, 12, 13, 14] =
        some ([⟨0, 0⟩, ⟨0, 1⟩, ⟨0, 2⟩, ⟨0, 3⟩, ⟨0, 4⟩], s₅) ∧
      ∃ s₆ s₇, s₅.remove ⟨0, 1⟩ = (Except.ok (), s₆) ∧
        s₆.remove ⟨0, 3⟩ = (Except.ok (), s₇) ∧
        ∃ idF s₈, s₇.add 20 = some (idF, s₈) ∧ idF.index = 3 ∧
          ∃ idG s₉, s₈.add 21 = some (idG, s₉) ∧ idG.index = 1 :=
  ⟨_, rfl, _, _, rfl, rfl, ⟨1, 3⟩, _, rfl, rfl, ⟨1, 1⟩, _, rfl, rfl⟩

/-! Stepping lemmas for the iterator, by the shape of the slot under the
cursor. -/

theorem next_oob {T : Type} {sl : List (ReusableIndexNode T)} {L i : Nat}
    (h : ¬ i < L) : ReusableIndexIterator.next ⟨sl, L, i⟩ = none := by
  unfold ReusableIndexIterator.next
  rw [dif_neg h]

theorem drain_oob {T : Type} {sl : List (ReusableIndexNode T)} {L i : Nat}
    (h : ¬ i < L) : ReusableIndexIterator.drain ⟨sl, L, i⟩ = [] := by
  unfold ReusableIndexIterator.drain
  rw [dif_neg h]

theorem next_none {T : Type} {sl : List (ReusableIndexNode T)} {L i : Nat}
    (h : i < L) (hsl : sl[i]? = none) :
    ReusableIndexIterator.next ⟨sl, L, i⟩ = none := by
  unfold ReusableIndexIterator.next
  rw [dif_pos h, hsl]

theorem drain_none {T : Type} {sl : List (ReusableIndexNode T)} {L i : Nat}
    (h : i < L) (hsl : sl[i]? = none) :
    ReusableIndexIterator.drain ⟨sl, L, i⟩ = [] := by
  unfold ReusableIndexIterator.drain
  rw [dif_pos h, hsl]

theorem next_hit {T : Type} {sl : List (ReusableIndexNode T)} {L i : Nat}
    (h : i < L) {c : CycleStamp} {val : T}
    (hsl : sl[i]? = some (ReusableIndexNode.Exists c val)) :
    ReusableIndexIterator.next ⟨sl, L, i⟩ = some (val, ⟨sl, L, i + 1⟩) := by
  unfold ReusableIndexIterator.next
  rw [dif_pos h, hsl]

theorem drain_hit {T : Type} {sl : List (ReusableIndexNode T)} {L i : Nat}
    (h : i < L) {c : CycleStamp} {val : T}
    (hsl : sl[i]? = some (ReusableIndexNode.Exists c val)) :
    ReusableIndexIterator.drain ⟨sl, L, i⟩ =
      val :: ReusableIndexIterator.drain ⟨sl, L, i + 1⟩ := by
  conv_lhs => unfold ReusableIndexIterator.drain
  rw [dif_pos h, hsl]

theorem next_skip {T : Type} {sl : List (ReusableIndexNode T)} {L i : Nat}
    (h : i < L) {node : ReusableIndexNode T} (hsl : sl[i]? = some node)
    (hnot : node.existsValue = none) :
    ReusableIndexIterator.next ⟨sl, L, i⟩ =
      ReusableIndexIterator.next ⟨sl, L, i + 1⟩ := by
  conv_lhs => unfold ReusableIndexIterator.next
  rw [dif_pos h, hsl]
  cases node with
  | Exists c val => simp [ReusableIndexNode.existsValue] at hnot
  | Removed c => rfl
  | RemovedAndNext c n => rfl

theorem drain_skip {T : Type} {sl : List (ReusableIndexNode T)} {L i : Nat}
    (h : i < L) {node : ReusableIndexNode T} (hsl : sl[i]? = some node)
    (hnot : node.existsValue = none) :
    ReusableIndexIterator.drain ⟨sl, L, i⟩ =
      ReusableIndexIterator.drain ⟨sl, L, i + 1⟩ := by
  conv_lhs => unfold ReusableIndexIterator.drain
  rw [dif_pos h, hsl]
  cases node with
  | Exists c val => simp [ReusableIndexNode.existsValue] at hnot
  | Removed c => rfl
  | RemovedAndNext c n => rfl

/-- Fuel-indexed form of the claim that `drain` is exactly the repeated-`next`
unfolding of the iterator. -/
theorem drain_next_aux {T : Type} (n : Nat) :
    ∀ (sl : List (ReusableIndexNode T)) (L i : Nat), L - i ≤ n →
      ReusableIndexIterator.drain ⟨sl, L, i⟩ =
        (match ReusableIndexIterator.next ⟨sl, L, i⟩ with
         | none => []
         | some (val, it') => val :: it'.drain) := by
  induction n with
  | zero =>
    intro sl L i h
    have hge : ¬ i < L := by omega
    rw [next_oob hge, drain_oob hge]
  | succ n ih =>
    intro sl L i h
    by_cases hlt : i < L
    · rcases hsl : sl[i]? with _ | node
      · rw [next_none hlt hsl, drain_none hlt hsl]
      · cases node with
        | Exists c val =>
          rw [next_hit hlt hsl, drain_hit hlt hsl]
        | Removed c =>
          rw [next_skip hlt hsl rfl, drain_skip hlt hsl rfl]
          exact ih sl L (i + 1) (by omega)
        | RemovedAndNext c nx =>
          rw [next_skip hlt hsl rfl, drain_skip hlt hsl rfl]
          exact ih sl L (i + 1) (by omega)
    · rw [next_oob hlt, drain_oob hlt]

/-- Fuel-indexed filterMap characterisation of `drain` on an iterator whose
captured length is the slice length, as `iter` produces it. -/
theorem drain_filterMap_aux {T : Type} (n : Nat) :
    ∀ (v : List (ReusableIndexNode T)) (i : Nat), v.length - i ≤ n →
      ReusableIndexIterator.drain ⟨v, v.length, i⟩ =
        (v.drop i).filterMap ReusableIndexNode.existsValue := by
  induction n with
  | zero =>
    intro v i h
    have hge : ¬ i < v.length := by omega
    rw [drain_oob hge, List.drop_eq_nil_of_le (by omega)]
    rfl
  | succ n ih =>
    intro v i h
    by_cases hlt : i < v.length
    · have hdrop : v.drop i = v[i] :: v.drop (i + 1) := List.drop_eq_getElem_cons hlt
      have hsl : v[i]? = some v[i] := List.getElem?_eq_getElem hlt
      rw [hdrop, List.filterMap_cons]
      rcases hx : v[i] with ⟨c, val⟩ | c | ⟨c, nx⟩
      · rw [hx] at hsl
        rw [drain_hit hlt hsl, ih v (i + 1) (by omega)]
        rfl
      · rw [hx] at hsl
        rw [drain_skip hlt hsl rfl, ih v (i + 1) (by omega)]
        rfl
      · rw [hx] at hsl
        rw [drain_skip hlt hsl rfl, ih v (i + 1) (by omega)]
        rfl
    · rw [drain_oob hlt, List.drop_eq_nil_of_le (by omega)]
      rfl

/-- Slot contents versus `get`: slot `i` holds stamp `c` and value `v`
exactly when the handle `⟨c, i⟩` resolves to `v`. -/
theorem slot_exists_iff_get {T : Type} (s : ReusableIndexVec T) (i : Index)
    (c : CycleStamp) (v : T) :
    s.vector[i]? = some (ReusableIndexNode.Exists c v) ↔ s.get ⟨c, i⟩ = some v := by
  constructor
  · intro hv
    rw [@get_eq_of_slot T s ⟨c, i⟩ c v hv]
    simp
  · intro hg
    rcases hv : s.vector[i]? with _ | node
    · have hnone : s.get ⟨c, i⟩ = none := by
        unfold ReusableIndexVec.get ReusableIndexVec.get_by_index
        rw [hv]
      rw [hnone] at hg
      exact absurd hg (by simp)
    · cases node with
      | Exists c' w =>
        rw [@get_eq_of_slot T s ⟨c, i⟩ c' w hv] at hg
        by_cases hcc : c = c'
        · rw [if_pos hcc] at hg
          injection hg with hw
          subst hcc
          subst hw
          rfl
        · rw [if_neg hcc] at hg
          exact absurd hg (by simp)
      | Removed c' =>
        have hnone : s.get ⟨c, i⟩ = none := by
          unfold ReusableIndexVec.get ReusableIndexVec.get_by_index
          rw [hv]
        rw [hnone] at hg
        exact absurd hg (by simp)
      | RemovedAndNext c' nx =>
        have hnone : s.get ⟨c, i⟩ = none := by
          unfold ReusableIndexVec.get ReusableIndexVec.get_by_index
          rw [hv]
        rw [hnone] at hg
        exact absurd hg (by simp)

/-- C7: the iterator is sound and complete.  First conjunct: `drain` is the
sequence obtained by driving `next` to exhaustion, so it is the (finite)
sequence `iter` produces.  Second conjunct: that sequence is exactly the
values of the `Exists` slots in ascending slot order, skipping every removed
slot.  Third conjunct: the `Exists` slots are exactly the handles currently
resolvable via `get`. -/
theorem iterate_complete {T : Type} (s : ReusableIndexVec T) :
    (∀ it : ReusableIndexIterator T, it.drain =
        (match it.next with
         | none => []
         | some (val, it') => val :: it'.drain)) ∧
      s.iter.drain = s.vector.filterMap ReusableIndexNode.existsValue ∧
      ∀ i c v, s.vector[i]? = some (ReusableIndexNode.Exists c v) ↔
        s.get ⟨c, i⟩ = some v := by
  refine ⟨fun it => ?_, ?_, fun i c v => slot_exists_iff_get s i c v⟩
  · obtain ⟨sl, L, i⟩ := it
    exact drain_next_aux (L - i) sl L i (Nat.le_refl _)
  · have h := drain_filterMap_aux s.vector.length s.vector 0 (by omega)
    rw [List.drop_zero] at h
    exact h

/-- A successful `add` never targets a slot that currently holds a live
value: reuse picks a tombstone and fresh insertion appends past the end. -/
theorem add_target_not_occupied {T : Type} {s : ReusableIndexVec T} {v : T}
    {id : ID} {s' : ReusableIndexVec T} (h : s.add v = some (id, s')) :
    ¬ s.occupiedAt id.index := by
  rcases hlr : s.last_removed with _ | lr
  · rw [add_push_spec v hlr] at h
    simp only [Option.some.injEq, Prod.mk.injEq] at h
    obtain ⟨hid, hs⟩ := h
    have hidx : id.index = s.vector.length := by rw [← hid]
    rintro ⟨c', w', hv'⟩
    rw [hidx] at hv'
    exact absurd (getElem?_some_lt hv') (by omega)
  · obtain ⟨c, hcase, hid, hvec⟩ := add_pop_spec h hlr
    have hidx : id.index = lr := by rw [hid]
    rintro ⟨c', w', hv'⟩
    rw [hidx] at hv'
    rcases hcase with hv | ⟨n, hv⟩ <;> rw [hv] at hv' <;>
      exact absurd hv' (by simp)

/-- A successful `add` keeps every currently occupied slot occupied (it only
overwrites a tombstone or appends a fresh slot). -/
theorem add_preserves_occupied {T : Type} {s : ReusableIndexVec T} {v : T}
    {id : ID} {s' : ReusableIndexVec T} (h : s.add v = some (id, s'))
    {i : Index} (hocc : s.occupiedAt i) : s'.occupiedAt i := by
  obtain ⟨c', w', hv'⟩ := hocc
  rcases hlr : s.last_removed with _ | lr
  · rw [add_push_spec v hlr] at h
    simp only [Option.some.injEq, Prod.mk.injEq] at h
    obtain ⟨hid, hs⟩ := h
    subst hs
    exact ⟨c', w',
      (List.getElem?_append_left (getElem?_some_lt hv')).trans hv'⟩
  · obtain ⟨c, hcase, hid, hvec⟩ := add_pop_spec h hlr
    by_cases hil : i = lr
    · rw [hil] at hv'
      rcases hcase with hv | ⟨n, hv⟩ <;> rw [hv] at hv' <;>
        exact absurd hv' (by simp)
    · refine ⟨c', w', ?_⟩
      rw [hvec]
      exact (List.getElem?_set_ne (fun he => hil he.symm)).trans hv'

/-- Along a removal-free sequence of adds, an occupied slot stays occupied
and none of the returned handles ever carries its index. -/
theorem addList_avoids_occupied {T : Type} :
    ∀ (vs : List T) (s : ReusableIndexVec T) (ids : List ID)
      (s' : ReusableIndexVec T), s.addList vs = some (ids, s') →
      ∀ i, s.occupiedAt i → (∀ id ∈ ids, id.index ≠ i) ∧ s'.occupiedAt i := by
  intro vs
  induction vs with
  | nil =>
    intro s ids s' h i hocc
    unfold ReusableIndexVec.addList at h
    simp only [Option.some.injEq, Prod.mk.injEq] at h
    obtain ⟨hids, hs⟩ := h
    subst hids
    subst hs
    exact ⟨by simp, hocc⟩
  | cons v rest ih =>
    intro s ids s' h i hocc
    unfold ReusableIndexVec.addList at h
    split at h
    · exact absurd h (by simp)
    · rename_i id₀ s₁ hadd
      split at h
      · exact absurd h (by simp)
      · rename_i ids₁ s₁' hrest
        simp only [Option.some.injEq, Prod.mk.injEq] at h
        obtain ⟨hids, hs⟩ := h
        subst hids
        subst hs
        have hni := add_target_not_occupied hadd
        have hocc₁ := add_preserves_occupied hadd hocc
        obtain ⟨hall, hocc'⟩ := ih s₁ ids₁ s₁' hrest i hocc₁
        refine ⟨?_, hocc'⟩
        intro id hmem
        rcases List.mem_cons.mp hmem with hid | hid
        · subst hid
          intro he
          exact hni (by rw [he]; exact hocc)
        · exact hall id hid

/-- C9: from any starting state, the handles returned by a sequence of adds
with no interleaved removal are pairwise distinct. -/
theorem adds_give_distinct_handles {T : Type} (s : ReusableIndexVec T)
    (vs : List T) (ids : List ID) (s' : ReusableIndexVec T)
    (h : s.addList vs = some (ids, s')) :
    List.Pairwise (fun a b => a ≠ b) ids := by
  induction vs generalizing s ids s' with
  | nil =>
    unfold ReusableIndexVec.addList at h
    simp only [Option.some.injEq, Prod.mk.injEq] at h
    obtain ⟨hids, hs⟩ := h
    subst hids
    exact List.Pairwise.nil
  | cons v rest ih =>
    unfold ReusableIndexVec.addList at h
    split at h
    · exact absurd h (by simp)
    · rename_i id₀ s₁ hadd
      split at h
      · exact absurd h (by simp)
      · rename_i ids₁ s₁' hrest
        simp only [Option.some.injEq, Prod.mk.injEq] at h
        obtain ⟨hids, hs⟩ := h
        subst hids
        subst hs
        have hocc₁ : s₁.occupiedAt id₀.index :=
          ⟨id₀.stamp, v, add_sets_slot hadd⟩
        obtain ⟨hall, _⟩ :=
          addList_avoids_occupied rest s₁ ids₁ s₁' hrest id₀.index hocc₁
        refine List.nodup_cons.mpr ⟨?_, ih s₁ ids₁ s₁' hrest⟩
        intro hmem
        exact hall id₀ hmem rfl

/-- C9 witness: the two adds `[5, 6]` into the empty container return the
distinct handles `⟨0, 0⟩` and `⟨0, 1⟩`. -/
theorem adds_give_distinct_handles_witness :
    List.Pairwise (fun a b => a ≠ b) [ID.mk 0 0, ID.mk 0 1] :=
  adds_give_distinct_handles (ReusableIndexVec.new Nat) [5, 6]
    [⟨0, 0⟩, ⟨0, 1⟩]
    ⟨[ReusableIndexNode.Exists 0 5, ReusableIndexNode.Exists 0 6], none⟩ rfl

/-- Full shape of a successful `add` that reuses a freed slot, including the
new free-list head: popping a terminal `Removed` slot empties the list,
popping a `RemovedAndNext` slot moves the head to its link. -/
theorem add_pop_full {T : Type} {s : ReusableIndexVec T} {v : T} {id' : ID}
    {s₂ : ReusableIndexVec T} {i : Index}
    (hadd : s.add v = some (id', s₂)) (hlr : s.last_removed = some i) :
    ∃ c, id' = ⟨wrappingAdd32 c 1, i⟩ ∧
      ((s.vector[i]? = some (ReusableIndexNode.Removed c) ∧
          s₂ = ⟨s.vector.set i (ReusableIndexNode.Exists (wrappingAdd32 c 1) v),
                none⟩) ∨
        ∃ n, s.vector[i]? = some (ReusableIndexNode.RemovedAndNext c n) ∧
          s₂ = ⟨s.vector.set i (ReusableIndexNode.Exists (wrappingAdd32 c 1) v),
                some n⟩) := by
  unfold ReusableIndexVec.add at hadd
  split at hadd
  · rename_i lr hlr'
    rw [hlr] at hlr'
    injection hlr' with hi
    subst hi
    split at hadd
    · rename_i c hv
      simp only [Option.some.injEq, Prod.mk.injEq] at hadd
      obtain ⟨hid, hs⟩ := hadd
      exact ⟨c, hid.symm, Or.inl ⟨hv, hs.symm⟩⟩
    · rename_i c n hv
      simp only [Option.some.injEq, Prod.mk.injEq] at hadd
      obtain ⟨hid, hs⟩ := hadd
      exact ⟨c, hid.symm, Or.inr ⟨n, hv, hs.symm⟩⟩
    · exact absurd hadd (by simp)
    · exact absurd hadd (by simp)
  · rename_i hlr'
    rw [hlr] at hlr'
    exact absurd hlr' (by simp)

/-- Every index on a free-list chain is in bounds and its slot is not
`Exists`. -/
theorem freeChain_mem_facts {T : Type} {v : List (ReusableIndexNode T)}
    {hd : Option Index} {chain : List Index} (hfc : FreeChain v hd chain) :
    ∀ i ∈ chain, i < v.length ∧
      ∀ c w, v[i]? ≠ some (ReusableIndexNode.Exists c w) := by
  induction hfc with
  | nil =>
    intro i hi
    exact absurd hi (by simp)
  | last j c hj =>
    intro i hi
    have hij : i = j := by simpa using hi
    subst hij
    refine ⟨getElem?_some_lt hj, fun c' w' hcon => ?_⟩
    rw [hj] at hcon
    simp at hcon
  | cons j c n rest hj hrest ih =>
    intro i hi
    rcases List.mem_cons.mp hi with hij | hm
    · subst hij
      refine ⟨getElem?_some_lt hj, fun c' w' hcon => ?_⟩
      rw [hj] at hcon
      simp at hcon
    · exact ih i hm

/-- Updating a slot that is not on a free-list chain preserves the chain. -/
theorem freeChain_set {T : Type} {v : List (ReusableIndexNode T)}
    {hd : Option Index} {chain : List Index} (hfc : FreeChain v hd chain) :
    ∀ {j : Index} {x : ReusableIndexNode T}, j ∉ chain →
      FreeChain (v.set j x) hd chain := by
  induction hfc with
  | nil =>
    intro j x _
    exact FreeChain.nil
  | last i c hi =>
    intro j x hj
    have hji : j ≠ i := by simpa using hj
    exact FreeChain.last i c ((List.getElem?_set_ne hji).trans hi)
  | cons i c n rest hi hrest ih =>
    intro j x hj
    simp only [List.mem_cons, not_or] at hj
    exact FreeChain.cons i c n rest
      ((List.getElem?_set_ne hj.1).trans hi) (ih hj.2)

/-- A successful `add` preserves the free-list invariant. -/
theorem inv_add {T : Type} {s : ReusableIndexVec T} {v : T} {id : ID}
    {s' : ReusableIndexVec T} (hinv : FreeListInv s)
    (hadd : s.add v = some (id, s')) : FreeListInv s' := by
  obtain ⟨chain, hfc, hnd⟩ := hinv
  rcases hlr : s.last_removed with _ | lr
  · rw [add_push_spec v hlr] at hadd
    simp only [Option.some.injEq, Prod.mk.injEq] at hadd
    obtain ⟨hid, hs⟩ := hadd
    subst hs
    exact ⟨[], FreeChain.nil, List.nodup_nil⟩
  · obtain ⟨c, hid, hcase⟩ := add_pop_full hadd hlr
    rw [hlr] at hfc
    rcases hcase with ⟨hv, hs⟩ | ⟨n, hv, hs⟩
    · subst hs
      exact ⟨[], FreeChain.nil, List.nodup_nil⟩
    · cases hfc with
      | last j c' hj =>
        rw [hv] at hj
        simp at hj
      | cons j c' n' rest hj hrest =>
        rw [hv] at hj
        simp only [Option.some.injEq,
          ReusableIndexNode.RemovedAndNext.injEq] at hj
        obtain ⟨hc', hn'⟩ := hj
        subst hc'
        subst hn'
        subst hs
        have hnd' := List.nodup_cons.mp hnd
        exact ⟨rest, freeChain_set hrest hnd'.1, hnd'.2⟩

/-- The error path of `remove` returns the container unchanged. -/
theorem remove_error_unchanged {T : Type} {s : ReusableIndexVec T} {id : ID}
    {e : Error} {s' : ReusableIndexVec T}
    (h : s.remove id = (Except.error e, s')) : s' = s := by
  unfold ReusableIndexVec.remove at h
  split at h
  · split at h
    · exact absurd h (by simp)
    · simp only [Prod.mk.injEq] at h
      exact h.2.symm
  · simp only [Prod.mk.injEq] at h
    exact h.2.symm

/-- Any `remove` call preserves the free-list invariant. -/
theorem inv_remove {T : Type} {s : ReusableIndexVec T} {id : ID}
    {r : ListResult Unit} {s' : ReusableIndexVec T} (hinv : FreeListInv s)
    (hrem : s.remove id = (r, s')) : FreeListInv s' := by
  rcases r with e | u
  · rw [remove_error_unchanged hrem]
    exact hinv
  · cases u
    obtain ⟨w, hv, hs⟩ := remove_ok_spec hrem
    obtain ⟨chain, hfc, hnd⟩ := hinv
    have hi : id.index < s.vector.length := getElem?_some_lt hv
    have hnotin : id.index ∉ chain := by
      intro hmem
      exact (freeChain_mem_facts hfc id.index hmem).2 id.stamp w hv
    rcases hlr : s.last_removed with _ | lr
    · rw [hlr] at hfc
      cases hfc
      rw [hlr] at hs
      subst hs
      exact ⟨[id.index],
        FreeChain.last id.index id.stamp (List.getElem?_set_eq_of_lt _ hi),
        List.nodup_singleton _⟩
    · rw [hlr] at hfc hs
      subst hs
      exact ⟨id.index :: chain,
        FreeChain.cons id.index id.stamp lr chain
          (List.getElem?_set_eq_of_lt _ hi) (freeChain_set hfc hnotin),
        List.nodup_cons.mpr ⟨hnotin, hnd⟩⟩

/-- Every reachable container state satisfies the free-list invariant. -/
theorem reachable_inv {T : Type} {s : ReusableIndexVec T}
    (h : Reachable s) : FreeListInv s := by
  induction h with
  | init capacity => exact ⟨[], FreeChain.nil, List.nodup_nil⟩
  | addStep hr hadd ih => exact inv_add ih hadd
  | removeStep hr hrem ih => exact inv_remove ih hrem

/-- Evaluation of `add` when the free-list head is a terminal `Removed`
slot. -/
theorem add_some_removed {T : Type} {s : ReusableIndexVec T} {i : Index}
    {c : CycleStamp} (hlr : s.last_removed = some i)
    (hv : s.vector[i]? = some (ReusableIndexNode.Removed c)) (v : T) :
    s.add v = some (⟨wrappingAdd32 c 1, i⟩,
      ⟨s.vector.set i (ReusableIndexNode.Exists (wrappingAdd32 c 1) v),
        none⟩) := by
  unfold ReusableIndexVec.add
  simp only [hlr, hv]

/-- Evaluation of `add` when the free-list head is a linked
`RemovedAndNext` slot. -/
theorem add_some_ran {T : Type} {s : ReusableIndexVec T} {i n : Index}
    {c : CycleStamp} (hlr : s.last_removed = some i)
    (hv : s.vector[i]? = some (ReusableIndexNode.RemovedAndNext c n)) (v : T) :
    s.add v = some (⟨wrappingAdd32 c 1, i⟩,
      ⟨s.vector.set i (ReusableIndexNode.Exists (wrappingAdd32 c 1) v),
        some n⟩) := by
  unfold ReusableIndexVec.add
  simp only [hlr, hv]

/-- C5: in every reachable state, `last_removed`, when present, is an
in-bounds index whose slot is `Removed` or `RemovedAndNext` — never
`Exists` — and consequently `add` never takes a panic branch (modelled as
`add` never returning `none`, which covers both the out-of-bounds assertion
and the occupied-slot `panic!`). -/
theorem last_removed_always_free {T : Type} (s : ReusableIndexVec T)
    (h : Reachable s) :
    (∀ i, s.last_removed = some i → i < s.vector.length ∧
        ∃ c, s.vector[i]? = some (ReusableIndexNode.Removed c) ∨
          ∃ n, s.vector[i]? = some (ReusableIndexNode.RemovedAndNext c n)) ∧
      ∀ v, s.add v ≠ none := by
  obtain ⟨chain, hfc, hnd⟩ := reachable_inv h
  constructor
  · intro i hlr
    rw [hlr] at hfc
    cases hfc with
    | last j c hj => exact ⟨getElem?_some_lt hj, c, Or.inl hj⟩
    | cons j c n rest hj hrest =>
      exact ⟨getElem?_some_lt hj, c, Or.inr ⟨n, hj⟩⟩
  · intro v hcontra
    rcases hlr : s.last_removed with _ | lr
    · rw [add_push_spec v hlr] at hcontra
      exact absurd hcontra (by simp)
    · rw [hlr] at hfc
      cases hfc with
      | last j c hj =>
        rw [add_some_removed hlr hj v] at hcontra
        exact absurd hcontra (by simp)
      | cons j c n rest hj hrest =>
        rw [add_some_ran hlr hj v] at hcontra
        exact absurd hcontra (by simp)

/-- C5 witness: the state reached from a fresh container by one add and one
remove has `last_removed = some 0` pointing at a `Removed` slot, and `add`
into it cannot panic. -/
theorem last_removed_always_free_witness :
    (∀ i, (⟨[ReusableIndexNode.Removed 0], some 0⟩ :
          ReusableIndexVec Nat).last_removed = some i →
        i < (⟨[ReusableIndexNode.Removed 0], some 0⟩ :
          ReusableIndexVec Nat).vector.length ∧
        ∃ c, (⟨[ReusableIndexNode.Removed 0], some 0⟩ :
            ReusableIndexVec Nat).vector[i]? =
            some (ReusableIndexNode.Removed c) ∨
          ∃ n, (⟨[ReusableIndexNode.Removed 0], some 0⟩ :
            ReusableIndexVec Nat).vector[i]? =
            some (ReusableIndexNode.RemovedAndNext c n)) ∧
      ∀ v, (⟨[ReusableIndexNode.Removed 0], some 0⟩ :
        ReusableIndexVec Nat).add v ≠ none :=
  last_removed_always_free _
    (Reachable.removeStep
      (Reachable.addStep (Reachable.init 128)
        (rfl : (ReusableIndexVec.with_capacity Nat 128).add 5 =
          some (⟨0, 0⟩, ⟨[ReusableIndexNode.Exists 0 5], none⟩)))
      (rfl : (⟨[ReusableIndexNode.Exists 0 5], none⟩ :
          ReusableIndexVec Nat).remove ⟨0, 0⟩ =
        (Except.ok (), ⟨[ReusableIndexNode.Removed 0], some 0⟩)))

end Bugeutils
